import Mathlib

/-!
Verification of the attribute-parsing, authentication-orchestration and
user-provisioning core of django-shibboleth-remoteuser
(`shibboleth/middleware.py` and `shibboleth/backends.py`), as a shallow
embedding: Python dicts become association lists with Python's
insert-or-replace assignment, request/session state is passed explicitly,
and Django collaborators (the user store's `get_or_create`, the session
store, the overridable hooks) are modelled at their documented interface.
-/

namespace Shib

/-- Truthiness test on an optional header value, as Python evaluates
`not value or value == ''` in `parse_attributes` (middleware.py line 113):
`None` (missing header) and the empty string are falsy, every other string
is truthy. -/
def falsyValue : Option String → Bool
  | none => true
  | some s => s == ""

/-- Python dict access `d.get(k)` / `d[k]` on an association list: the
first pair whose key matches, `none` when the key is absent. -/
def dictGet (d : List (String × α)) (k : String) : Option α :=
  match d with
  | [] => none
  | kv :: rest => if kv.1 == k then some kv.2 else dictGet rest k

/-- Python dict assignment `d[k] = v`: when the key is already present its
value is replaced in place (insertion order kept), otherwise the pair is
appended at the end. -/
def dictInsert (d : List (String × α)) (k : String) (v : α) :
    List (String × α) :=
  if d.any (fun kv => kv.1 == k) then
    d.map (fun kv => if kv.1 == k then (k, v) else kv)
  else d ++ [(k, v)]

theorem dictGet_map_replace_self (d : List (String × α)) (k : String)
    (v : α) (h : d.any (fun kv => kv.1 == k) = true) :
    dictGet (d.map (fun kv => if kv.1 == k then (k, v) else kv)) k =
      some v := by
  induction d with
  | nil => simp at h
  | cons kv rest ih =>
    simp only [List.any_cons, Bool.or_eq_true] at h
    cases hk : kv.1 == k with
    | true => simp [dictGet, hk]
    | false =>
      have hrest : rest.any (fun kv => kv.1 == k) = true := by
        rcases h with h | h
        · rw [hk] at h; exact absurd h (by simp)
        · exact h
      simpa [dictGet, hk] using ih hrest

theorem dictGet_append_single_self (d : List (String × α)) (k : String)
    (v : α) (h : d.any (fun kv => kv.1 == k) = false) :
    dictGet (d ++ [(k, v)]) k = some v := by
  induction d with
  | nil => simp [dictGet]
  | cons kv rest ih =>
    simp only [List.any_cons, Bool.or_eq_false_iff] at h
    simp [dictGet, h.1, ih (by simp [h.2])]

theorem dictGet_dictInsert_self (d : List (String × α)) (k : String)
    (v : α) : dictGet (dictInsert d k v) k = some v := by
  simp only [dictInsert]
  cases h : d.any (fun kv => kv.1 == k) with
  | true => simpa using dictGet_map_replace_self d k v h
  | false => simpa using dictGet_append_single_self d k v h

theorem dictGet_map_replace_ne (d : List (String × α)) (k : String)
    (v : α) (n : String) (hne : n ≠ k) :
    dictGet (d.map (fun kv => if kv.1 == k then (k, v) else kv)) n =
      dictGet d n := by
  induction d with
  | nil => rfl
  | cons kv rest ih =>
    cases hk : kv.1 == k with
    | true =>
      have h1 : (k == n) = false :=
        beq_eq_false_iff_ne.mpr (fun hh => hne hh.symm)
      have h2 : (kv.1 == n) = false := by
        rw [eq_of_beq hk]; exact h1
      simpa [dictGet, hk, h1, h2] using ih
    | false =>
      cases hn : kv.1 == n
      · simpa [dictGet, hk, hn] using ih
      · simp [dictGet, hk, hn]

theorem dictGet_append_single_ne (d : List (String × α)) (k : String)
    (v : α) (n : String) (hne : n ≠ k) :
    dictGet (d ++ [(k, v)]) n = dictGet d n := by
  induction d with
  | nil =>
    simp [dictGet, beq_eq_false_iff_ne.mpr (fun hh => hne hh.symm)]
  | cons kv rest ih =>
    cases hn : kv.1 == n <;> simp [dictGet, hn, ih]

theorem dictGet_dictInsert_ne (d : List (String × α)) (k : String) (v : α)
    (n : String) (hne : n ≠ k) :
    dictGet (dictInsert d k v) n = dictGet d n := by
  simp only [dictInsert]
  cases h : d.any (fun kv => kv.1 == k) with
  | true => simpa using dictGet_map_replace_ne d k v n hne
  | false => simpa using dictGet_append_single_ne d k v n hne

/-- One entry of `SHIBBOLETH_ATTRIBUTE_MAP`: an external header name mapped
to `(required, canonical_name)`. -/
structure MapEntry where
  header : String
  required : Bool
  name : String
  deriving DecidableEq

/-- The body of the loop of `parse_attributes` (middleware.py lines
109-115) for one mapping entry: read the header from `META` (absent gives
`None`), store the value under the canonical name, and set the error flag
when a required value is falsy. -/
def parseStep (meta : List (String × String))
    (acc : List (String × Option String) × Bool) (e : MapEntry) :
    List (String × Option String) × Bool :=
  let value := dictGet meta e.header
  let attrs := dictInsert acc.1 e.name value
  let error := if falsyValue value then (if e.required then true else acc.2)
    else acc.2
  (attrs, error)

/-- `ShibbolethRemoteUserMiddleware.parse_attributes` (middleware.py lines
100-116): fold the loop body over the configured attribute map, starting
from the empty dict and `error = False`; returns `(shib_attrs, error)`. -/
def parse_attributes (mapping : List MapEntry)
    (meta : List (String × String)) :
    List (String × Option String) × Bool :=
  mapping.foldl (parseStep meta) ([], false)

theorem parseStep_snd (meta : List (String × String))
    (acc : List (String × Option String) × Bool) (e : MapEntry) :
    (parseStep meta acc e).2 =
      (acc.2 || (e.required && falsyValue (dictGet meta e.header))) := by
  simp only [parseStep]
  cases hf : falsyValue (dictGet meta e.header) <;>
    cases hr : e.required <;> simp

theorem parse_foldl_snd (meta : List (String × String))
    (mapping : List MapEntry) :
    ∀ acc, (mapping.foldl (parseStep meta) acc).2 =
      (acc.2 || mapping.any
        (fun e => e.required && falsyValue (dictGet meta e.header))) := by
  induction mapping with
  | nil => intro acc; simp
  | cons e rest ih =>
    intro acc
    simp only [List.foldl_cons, List.any_cons]
    rw [ih, parseStep_snd, Bool.or_assoc]

theorem dictInsert_keys_mem (d : List (String × α)) (k : String) (v : α)
    (n : String) :
    n ∈ (dictInsert d k v).map Prod.fst ↔
      n = k ∨ n ∈ d.map Prod.fst := by
  simp only [dictInsert]
  by_cases h : d.any (fun kv => kv.1 == k) = true
  · rw [if_pos h]
    have hmap : (d.map (fun kv => if kv.1 == k then (k, v) else kv)).map
        Prod.fst = d.map Prod.fst := by
      rw [List.map_map]
      apply List.map_congr_left
      intro kv _
      by_cases hk : kv.1 == k
      · simp only [Function.comp_apply, if_pos hk]
        exact (eq_of_beq hk).symm
      · have hne : ¬ kv.1 = k := by simpa using hk
        simp [hne]
    rw [hmap]
    constructor
    · intro hn; exact Or.inr hn
    · intro hn
      rcases hn with hn | hn
      · subst hn
        rcases List.any_eq_true.mp h with ⟨kv, hkv, hbeq⟩
        exact List.mem_map.mpr ⟨kv, hkv, eq_of_beq hbeq⟩
      · exact hn
  · rw [if_neg h]
    simp only [List.map_append, List.map_cons, List.map_nil,
      List.mem_append, List.mem_cons, List.not_mem_nil, or_false]
    tauto

theorem parse_foldl_keys (meta : List (String × String))
    (mapping : List MapEntry) (n : String) :
    ∀ acc, n ∈ (mapping.foldl (parseStep meta) acc).1.map Prod.fst ↔
      (n ∈ acc.1.map Prod.fst ∨ n ∈ mapping.map MapEntry.name) := by
  induction mapping with
  | nil => intro acc; simp
  | cons e rest ih =>
    intro acc
    simp only [List.foldl_cons, List.map_cons, List.mem_cons]
    rw [ih]
    have hstep : (parseStep meta acc e).1 =
        dictInsert acc.1 e.name (dictGet meta e.header) := rfl
    rw [hstep, dictInsert_keys_mem]
    tauto

/-- C1: `parse_attributes` returns `error = true` exactly when some entry
of the mapping marked required has an absent value (header missing or
present but empty); with every required value non-empty the flag is false
whatever the optional entries; and the flag is monotone across the fold:
once set while processing a prefix of the mapping, it is still set at the
end of the call. -/
theorem parse_attributes_validation (mapping : List MapEntry)
    (meta : List (String × String)) :
    ((parse_attributes mapping meta).2 = true ↔
      ∃ e ∈ mapping, e.required = true ∧
        falsyValue (dictGet meta e.header) = true)
    ∧ (∀ l1 l2, mapping = l1 ++ l2 →
        (parse_attributes l1 meta).2 = true →
        (parse_attributes mapping meta).2 = true) := by
  constructor
  · rw [parse_attributes, parse_foldl_snd]
    simp [List.any_eq_true]
  · intro l1 l2 hsplit h1
    rw [parse_attributes, parse_foldl_snd] at h1 ⊢
    simp only [Bool.false_or] at h1 ⊢
    rw [hsplit, List.any_append, h1, Bool.true_or]

/-- C2: for every header set (the empty one included), the key set of the
attribute dictionary returned by `parse_attributes` is exactly the set of
canonical names of the configured mapping: every configured entry produces
a key, and no other key appears. -/
theorem parse_attributes_keys (mapping : List MapEntry)
    (meta : List (String × String)) (n : String) :
    n ∈ (parse_attributes mapping meta).1.map Prod.fst ↔
      n ∈ mapping.map MapEntry.name := by
  rw [parse_attributes, parse_foldl_keys]
  simp

theorem parse_foldl_dictGet_not_mem (meta : List (String × String))
    (mapping : List MapEntry) (n : String)
    (hn : n ∉ mapping.map MapEntry.name) :
    ∀ acc, dictGet (mapping.foldl (parseStep meta) acc).1 n =
      dictGet acc.1 n := by
  induction mapping with
  | nil => intro acc; rfl
  | cons e rest ih =>
    intro acc
    simp only [List.map_cons, List.mem_cons] at hn
    push_neg at hn
    simp only [List.foldl_cons]
    rw [ih hn.2]
    exact dictGet_dictInsert_ne acc.1 e.name (dictGet meta e.header) n hn.1

theorem parse_foldl_dictGet_mem (meta : List (String × String))
    (mapping : List MapEntry) (e : MapEntry)
    (hnd : (mapping.map MapEntry.name).Nodup) (he : e ∈ mapping) :
    ∀ acc, dictGet (mapping.foldl (parseStep meta) acc).1 e.name =
      some (dictGet meta e.header) := by
  induction mapping with
  | nil => exact absurd he (List.not_mem_nil e)
  | cons m rest ih =>
    intro acc
    simp only [List.map_cons, List.nodup_cons] at hnd
    rcases List.mem_cons.mp he with heq | hmem
    · subst heq
      simp only [List.foldl_cons]
      rw [parse_foldl_dictGet_not_mem meta rest e.name hnd.1]
      exact dictGet_dictInsert_self acc.1 e.name (dictGet meta e.header)
    · simp only [List.foldl_cons]
      exact ih hnd.2 hmem _

/-- C10: (with the spec's invariant that canonical names are distinct) an
entry whose configured header is absent from the request maps its canonical
name to the `None` sentinel, while a header present with an empty value
maps it to the empty string; the validation test treats both as absent, yet
the two remain distinguishable in the dictionary stored into the session. -/
theorem parse_attributes_absent_vs_empty (mapping : List MapEntry)
    (meta : List (String × String)) (e : MapEntry)
    (hnd : (mapping.map MapEntry.name).Nodup) (he : e ∈ mapping) :
    dictGet (parse_attributes mapping meta).1 e.name =
      some (dictGet meta e.header)
    ∧ falsyValue none = true ∧ falsyValue (some "") = true
    ∧ (none : Option String) ≠ some "" := by
  refine ⟨?_, rfl, rfl, by simp⟩
  exact parse_foldl_dictGet_mem meta mapping e hnd he ([], false)

/-- C10 witness: in a two-entry mapping with the first header absent and
the second present but empty, the first canonical name is stored as `none`
and the second as `some ""`. -/
theorem parse_attributes_absent_vs_empty_witness :
    (dictGet (parse_attributes [⟨"H", true, "a"⟩, ⟨"E", false, "b"⟩]
        [("E", "")]).1 "a" = some (dictGet [("E", "")] "H")
      ∧ falsyValue none = true ∧ falsyValue (some "") = true
      ∧ (none : Option String) ≠ some "")
    ∧ (dictGet (parse_attributes [⟨"H", true, "a"⟩, ⟨"E", false, "b"⟩]
        [("E", "")]).1 "b" = some (dictGet [("E", "")] "E")
      ∧ falsyValue none = true ∧ falsyValue (some "") = true
      ∧ (none : Option String) ≠ some "") :=
  ⟨parse_attributes_absent_vs_empty [⟨"H", true, "a"⟩, ⟨"E", false, "b"⟩]
      [("E", "")] ⟨"H", true, "a"⟩ (by decide) (by decide),
    parse_attributes_absent_vs_empty [⟨"H", true, "a"⟩, ⟨"E", false, "b"⟩]
      [("E", "")] ⟨"E", false, "b"⟩ (by decide) (by decide)⟩

/-- A value stored in the Django session under some key: the logout flag is
read with `is True`, so its Python type matters; the reserved `shib` key
holds a parsed attribute dictionary. -/
inductive SessVal where
  | bool (b : Bool)
  | attrs (a : List (String × Option String))
  | str (s : String)
  deriving DecidableEq

/-- Python `request.session.pop(key, None)` (middleware.py line 32): the
key is removed when present, nothing changes when it is absent. -/
def sessionPop (s : List (String × SessVal)) (k : String) :
    List (String × SessVal) :=
  s.filter (fun kv => kv.1 != k)

/-- The per-request state `process_request` consumes: whether the
`request.user` attribute exists (AuthenticationMiddleware installed), the
session dictionary, the `META` header dictionary, and the authenticated
username (`none` models `request.user.is_authenticated` being false). -/
structure Request where
  hasUser : Bool
  session : List (String × SessVal)
  meta : List (String × String)
  userAuth : Option String

/-- `clean_username` as effective in this repository: neither
`ShibbolethRemoteUserMiddleware` nor `ShibbolethRemoteUserBackend`
overrides it, so Django's `RemoteUserBackend.clean_username` default
applies and the username passes through unchanged. -/
def clean_username (s : String) : String := s

/-- How one call of `process_request` terminated. `validationError` is the
raised `ShibbolethValidationError`, carrying the parsed attributes that the
exception message interpolates. -/
inductive Outcome where
  | improperlyConfigured
  | logoutSuppressed
  | anonymousNoHeader
  | fastPath
  | validationError (shib_meta : List (String × Option String))
  | notLoggedIn
  | loggedIn (username : String)
  deriving DecidableEq

/-- What one call of `process_request` did: its terminal outcome, the
session as left behind, whether `parse_attributes` ran, whether
`auth.authenticate` was called, the user passed to `auth.login` (if any),
and whether `_remove_invalid_user` ran. -/
structure PRResult where
  outcome : Outcome
  session : List (String × SessVal)
  parsedAttrs : Bool
  authCalled : Bool
  loginUser : Option String
  removedInvalidUser : Bool
  deriving DecidableEq

/-- `ShibbolethRemoteUserMiddleware.process_request` (middleware.py lines
16-82). `logoutKey` is `LOGOUT_SESSION_KEY` and `header` the configured
remote-user header, both imported from `app_settings`; `authFn` abstracts
`django.contrib.auth.authenticate` over the installed backend, returning
the username of the resolved user (`none` when authentication fails).
Django's inherited `_remove_invalid_user` logs the stale user out, which
flushes the session. The hooks `make_profile` and `setup_session` are
no-ops in this class. -/
def process_request (logoutKey header : String) (mapping : List MapEntry)
    (authFn : String → List (String × Option String) → Option String)
    (req : Request) : PRResult :=
  if req.hasUser = false then
    ⟨Outcome.improperlyConfigured, req.session, false, false, none, false⟩
  else if dictGet req.session logoutKey = some (SessVal.bool true) then
    ⟨Outcome.logoutSuppressed, req.session, false, false, none, false⟩
  else
    let session1 := sessionPop req.session logoutKey
    match dictGet req.meta header with
    | none => ⟨Outcome.anonymousNoHeader, session1, false, false, none, false⟩
    | some username =>
      if username = "" then
        ⟨Outcome.anonymousNoHeader, session1, false, false, none, false⟩
      else
        let isFast := match req.userAuth with
          | some au => au == clean_username username
          | none => false
        if isFast then
          ⟨Outcome.fastPath, session1, false, false, none, false⟩
        else
          let removed := req.userAuth.isSome
          let session2 := if removed then [] else session1
          let pa := parse_attributes mapping req.meta
          let session3 := dictInsert session2 "shib" (SessVal.attrs pa.1)
          if pa.2 then
            ⟨Outcome.validationError pa.1, session3, true, false, none,
              removed⟩
          else
            match authFn username pa.1 with
            | some u =>
              ⟨Outcome.loggedIn u, session3, true, true, some u, removed⟩
            | none =>
              ⟨Outcome.notLoggedIn, session3, true, true, none, removed⟩

/-- C3: when the session's logout-suppression flag is `True`,
`process_request` returns before any authentication step: no attribute
parsing, no session key written or removed, no `auth.authenticate` call,
no login, and the session is returned untouched — whatever the headers
carry. -/
theorem process_request_logout_suppressed (logoutKey header : String)
    (mapping : List MapEntry)
    (authFn : String → List (String × Option String) → Option String)
    (req : Request) (hu : req.hasUser = true)
    (hl : dictGet req.session logoutKey = some (SessVal.bool true)) :
    process_request logoutKey header mapping authFn req =
      ⟨Outcome.logoutSuppressed, req.session, false, false, none, false⟩ := by
  simp [process_request, hu, hl]

/-- C3 witness: a session with the logout flag `True` and a valid remote
header still yields the untouched suppressed result. -/
theorem process_request_logout_suppressed_witness :
    process_request "shib_logout" "REMOTE_USER" [⟨"EPPN", true, "username"⟩]
      (fun u _ => some u)
      ⟨true, [("shib_logout", SessVal.bool true)], [("REMOTE_USER", "alice")],
        none⟩ =
      ⟨Outcome.logoutSuppressed, [("shib_logout", SessVal.bool true)], false,
        false, none, false⟩ :=
  process_request_logout_suppressed "shib_logout" "REMOTE_USER"
    [⟨"EPPN", true, "username"⟩] (fun u _ => some u)
    ⟨true, [("shib_logout", SessVal.bool true)], [("REMOTE_USER", "alice")],
      none⟩ (by decide) (by decide)

theorem sessionPop_of_absent (s : List (String × SessVal)) (k : String)
    (h : dictGet s k = none) : sessionPop s k = s := by
  induction s with
  | nil => rfl
  | cons kv rest ih =>
    cases hk : kv.1 == k with
    | true => simp [dictGet, hk] at h
    | false =>
      have hrest : dictGet rest k = none := by
        simpa [dictGet, hk] using h
      have htl : List.filter (fun kv => kv.1 != k) rest = rest := ih hrest
      have hcond : (kv.1 != k) = true := by simp [bne, hk]
      simp only [sessionPop, List.filter_cons, hcond, if_true]
      rw [htl]

/-- C5 as stated is false: on a fast-path request (authenticated user
matching the remote header) whose session still holds the logout key with
a non-`True` value, the stale-flag `pop` executed before the comparison
removes that key, so the call does mutate the session. -/
theorem process_request_fast_path_counterexample :
    (process_request "shib_logout" "REMOTE_USER" []
      (fun _ _ => none)
      ⟨true, [("shib_logout", SessVal.bool false)], [("REMOTE_USER", "alice")],
        some "alice"⟩).outcome = Outcome.fastPath
    ∧ (process_request "shib_logout" "REMOTE_USER" []
      (fun _ _ => none)
      ⟨true, [("shib_logout", SessVal.bool false)], [("REMOTE_USER", "alice")],
        some "alice"⟩).session ≠
        [("shib_logout", SessVal.bool false)] := by
  decide

/-- C5 amended: on the already-authenticated fast path (the authenticated
username equals the cleaned non-empty remote header, cleaning being the
identity in this repository) `process_request` stops with no attribute
parsing, no `auth.authenticate` call and no re-login; the only session
mutation is the removal of a stale non-`True` logout-suppression key done
before the comparison, and a session without that key is returned
untouched. -/
theorem process_request_fast_path (logoutKey header : String)
    (mapping : List MapEntry)
    (authFn : String → List (String × Option String) → Option String)
    (req : Request) (au u : String) (hu : req.hasUser = true)
    (hl : dictGet req.session logoutKey ≠ some (SessVal.bool true))
    (hh : dictGet req.meta header = some u) (hne : u ≠ "")
    (ha : req.userAuth = some au) (heq : au = clean_username u) :
    process_request logoutKey header mapping authFn req =
      ⟨Outcome.fastPath, sessionPop req.session logoutKey, false, false,
        none, false⟩
    ∧ (dictGet req.session logoutKey = none →
        sessionPop req.session logoutKey = req.session) := by
  constructor
  · have hfast : (match req.userAuth with
        | some au => au == clean_username u
        | none => false) = true := by
      rw [ha]; exact beq_iff_eq.mpr heq
    simp [process_request, hu, hl, hh, hne, hfast]
  · exact sessionPop_of_absent req.session logoutKey

/-- C5 amended witness: an authenticated request matching the header, with
no logout key in the session, takes the fast path and leaves the session
exactly as it was. -/
theorem process_request_fast_path_witness :
    process_request "shib_logout" "REMOTE_USER" [⟨"EPPN", true, "username"⟩]
      (fun u _ => some u)
      ⟨true, [("other", SessVal.str "x")], [("REMOTE_USER", "alice")],
        some "alice"⟩ =
      ⟨Outcome.fastPath,
        sessionPop [("other", SessVal.str "x")] "shib_logout", false, false,
        none, false⟩
    ∧ (dictGet [("other", SessVal.str "x")] "shib_logout" = none →
        sessionPop [("other", SessVal.str "x")] "shib_logout" =
          [("other", SessVal.str "x")]) :=
  process_request_fast_path "shib_logout" "REMOTE_USER"
    [⟨"EPPN", true, "username"⟩] (fun u _ => some u)
    ⟨true, [("other", SessVal.str "x")], [("REMOTE_USER", "alice")],
      some "alice"⟩ "alice" "alice" (by decide) (by decide) (by decide)
    (by decide) (by decide) (by decide)

/-- C6: once attribute extraction is reached (flag not `True`, header
present and non-empty, fast path not taken) the parsed attribute
dictionary is written into the session under the reserved `shib` key
unconditionally — before the validation gate — and whenever the parse
reported a missing required attribute, the call ends in a
`ShibbolethValidationError` carrying those attributes, with no
`auth.authenticate` call and no login. -/
theorem process_request_validation_gate (logoutKey header : String)
    (mapping : List MapEntry)
    (authFn : String → List (String × Option String) → Option String)
    (req : Request) (u : String) (hu : req.hasUser = true)
    (hl : dictGet req.session logoutKey ≠ some (SessVal.bool true))
    (hh : dictGet req.meta header = some u) (hne : u ≠ "")
    (hfp : ∀ au, req.userAuth = some au → au ≠ clean_username u) :
    dictGet (process_request logoutKey header mapping authFn req).session
        "shib" = some (SessVal.attrs (parse_attributes mapping req.meta).1)
    ∧ ((parse_attributes mapping req.meta).2 = true →
        (process_request logoutKey header mapping authFn req).outcome =
          Outcome.validationError (parse_attributes mapping req.meta).1
        ∧ (process_request logoutKey header mapping authFn req).authCalled =
          false
        ∧ (process_request logoutKey header mapping authFn req).loginUser =
          none) := by
  have hfast : (match req.userAuth with
      | some au => au == clean_username u
      | none => false) = false := by
    cases hua : req.userAuth with
    | none => rfl
    | some au => exact beq_eq_false_iff_ne.mpr (hfp au hua)
  constructor
  · simp only [process_request, hu, Bool.true_eq_false, if_false, hl,
      if_neg hl, hh, hne, hfast]
    cases herr : (parse_attributes mapping req.meta).2 with
    | true =>
      simp [hne, herr]
      exact dictGet_dictInsert_self _ _ _
    | false =>
      cases hauth : authFn u (parse_attributes mapping req.meta).1 with
      | none =>
        simp [hne, herr, hauth]
        exact dictGet_dictInsert_self _ _ _
      | some w =>
        simp [hne, herr, hauth]
        exact dictGet_dictInsert_self _ _ _
  · intro herr
    simp [process_request, hu, hl, hh, hne, hfast, herr]

/-- C6 witness: a required header absent makes the parse fail; the parsed
attributes (username mapped to `none`) are still written into the session
and the call ends in the validation error with no login. -/
theorem process_request_validation_gate_witness :
    dictGet (process_request "shib_logout" "REMOTE_USER"
        [⟨"EPPN", true, "username"⟩] (fun u _ => some u)
        ⟨true, [], [("REMOTE_USER", "alice")], none⟩).session "shib" =
      some (SessVal.attrs (parse_attributes [⟨"EPPN", true, "username"⟩]
        [("REMOTE_USER", "alice")]).1)
    ∧ ((parse_attributes [⟨"EPPN", true, "username"⟩]
        [("REMOTE_USER", "alice")]).2 = true →
        (process_request "shib_logout" "REMOTE_USER"
          [⟨"EPPN", true, "username"⟩] (fun u _ => some u)
          ⟨true, [], [("REMOTE_USER", "alice")], none⟩).outcome =
          Outcome.validationError (parse_attributes
            [⟨"EPPN", true, "username"⟩] [("REMOTE_USER", "alice")]).1
        ∧ (process_request "shib_logout" "REMOTE_USER"
          [⟨"EPPN", true, "username"⟩] (fun u _ => some u)
          ⟨true, [], [("REMOTE_USER", "alice")], none⟩).authCalled = false
        ∧ (process_request "shib_logout" "REMOTE_USER"
          [⟨"EPPN", true, "username"⟩] (fun u _ => some u)
          ⟨true, [], [("REMOTE_USER", "alice")], none⟩).loginUser = none) :=
  process_request_validation_gate "shib_logout" "REMOTE_USER"
    [⟨"EPPN", true, "username"⟩] (fun u _ => some u)
    ⟨true, [], [("REMOTE_USER", "alice")], none⟩ "alice" (by decide)
    (by decide) (by decide) (by decide) (fun au h => nomatch h)

/-- A stored user record: `fields` models `getattr` / `__dict__` over the
model's fields (values are the optional strings Shibboleth supplies, the
`username` field included), `unusablePassword` the marker written by
`set_unusable_password`. -/
structure DUser where
  fields : String → Option String
  unusablePassword : Bool

/-- `user.save()` over the store: replace the record keyed by the given
primary identity (records are keyed here by their `username` field value at
fetch/create time) with the saved object. -/
def dbSave (db : List DUser) (key : Option String) (u : DUser) :
    List DUser :=
  db.map (fun w => if w.fields "username" == key then u else w)

/-- `ShibbolethRemoteUserBackend.update_user_params` (backends.py lines
77-87): when `params` is non-empty and `min` over the comparison list
`[getattr(user, k) == v for k, v in params.items()]` is `False` (at least
one field differs), apply every given value via `user.__dict__.update` and
save once. Returns the (possibly updated) user together with the number of
`user.save()` calls made. -/
def update_user_params (user : DUser)
    (params : List (String × Option String)) : DUser × Nat :=
  if 0 < params.length then
    if (params.map (fun kv => user.fields kv.1 == kv.2)).foldr min true
        = false then
      ({ user with fields := fun k =>
          match dictGet params k with
          | some v => v
          | none => user.fields k }, 1)
    else (user, 0)
  else (user, 0)

theorem bool_min_eq_and : ∀ a b : Bool, min a b = (a && b) := by decide

/-- The `not min([getattr(user, k) == v ...])` test of `update_user_params`
holds exactly when at least one given field value differs from the user's
current one. -/
theorem min_fold_comparisons (user : DUser)
    (params : List (String × Option String)) :
    ((params.map (fun kv => user.fields kv.1 == kv.2)).foldr min true
        = false) ↔ ∃ kv ∈ params, user.fields kv.1 ≠ kv.2 := by
  induction params with
  | nil => simp
  | cons w rest ih =>
    rw [List.map_cons, List.foldr_cons, bool_min_eq_and]
    cases hw : user.fields w.1 == w.2 with
    | false =>
      rw [Bool.false_and]
      exact ⟨fun _ => ⟨w, List.mem_cons_self w rest,
          beq_eq_false_iff_ne.mp hw⟩,
        fun _ => rfl⟩
    | true =>
      rw [Bool.true_and, ih]
      constructor
      · rintro ⟨kv, hkv, hne⟩
        exact ⟨kv, List.mem_cons_of_mem w hkv, hne⟩
      · rintro ⟨kv, hkv, hne⟩
        rcases List.mem_cons.mp hkv with heq | hm
        · subst heq
          exact absurd (eq_of_beq hw) hne
        · exact ⟨kv, hm, hne⟩

theorem mem_of_dictGet (d : List (String × α)) (k : String) (v : α)
    (h : dictGet d k = some v) : (k, v) ∈ d := by
  induction d with
  | nil => simp [dictGet] at h
  | cons kv rest ih =>
    cases hk : kv.1 == k with
    | true =>
      simp only [dictGet, hk, if_true, Option.some.injEq] at h
      have hkv : kv = (k, v) := by
        rcases kv with ⟨k0, v0⟩
        simp only at h hk
        rw [Prod.mk.injEq]
        exact ⟨eq_of_beq hk, h⟩
      rw [← hkv]
      exact List.mem_cons_self kv rest
    | false =>
      simp only [dictGet, hk, Bool.false_eq_true, if_false] at h
      exact List.mem_cons_of_mem kv (ih h)

theorem update_user_params_save_count (user : DUser)
    (params : List (String × Option String)) :
    (update_user_params user params).2 =
      if params ≠ [] ∧ ∃ kv ∈ params, user.fields kv.1 ≠ kv.2 then 1
      else 0 := by
  rcases params with _ | ⟨w, rest⟩
  · simp [update_user_params]
  · simp only [update_user_params]
    rw [if_pos (by simp : (0 : Nat) < (w :: rest).length)]
    by_cases hex : ∃ kv ∈ w :: rest, user.fields kv.1 ≠ kv.2
    · rw [if_pos ((min_fold_comparisons user (w :: rest)).mpr hex),
        if_pos ⟨List.cons_ne_nil w rest, hex⟩]
    · rw [if_neg (fun hc => hex ((min_fold_comparisons user
          (w :: rest)).mp hc)),
        if_neg (fun hc => hex hc.2)]

theorem update_user_params_fields_given (user : DUser)
    (params : List (String × Option String)) (k : String)
    (v : Option String) (h : dictGet params k = some v) :
    (update_user_params user params).1.fields k = v := by
  have hmem : (k, v) ∈ params := mem_of_dictGet params k v h
  have hlen : 0 < params.length := by
    cases params
    · simp at hmem
    · simp
  simp only [update_user_params]
  rw [if_pos hlen]
  by_cases hc : (params.map (fun kv => user.fields kv.1 == kv.2)).foldr
      min true = false
  · rw [if_pos hc]
    simp [h]
  · rw [if_neg hc]
    have hnoex : ¬ ∃ kv ∈ params, user.fields kv.1 ≠ kv.2 := fun hex =>
      hc ((min_fold_comparisons user params).mpr hex)
    push_neg at hnoex
    exact hnoex (k, v) hmem

theorem update_user_params_fields_other (user : DUser)
    (params : List (String × Option String)) (k : String)
    (h : dictGet params k = none) :
    (update_user_params user params).1.fields k = user.fields k := by
  simp only [update_user_params]
  by_cases hlen : 0 < params.length
  · rw [if_pos hlen]
    by_cases hc : (params.map (fun kv => user.fields kv.1 == kv.2)).foldr
        min true = false
    · rw [if_pos hc]
      simp [h]
    · rw [if_neg hc]
  · rw [if_neg hlen]

/-- C4: `update_user_params` saves exactly once when some given field value
differs from the user's current value for that field, performs no save at
all when every given value matches, never saves on an empty dictionary;
on return every given field carries its given value and every other field
is untouched. -/
theorem update_user_params_spec (user : DUser)
    (params : List (String × Option String)) :
    ((update_user_params user params).2 =
      if params ≠ [] ∧ ∃ kv ∈ params, user.fields kv.1 ≠ kv.2 then 1
      else 0)
    ∧ (∀ k v, dictGet params k = some v →
        (update_user_params user params).1.fields k = v)
    ∧ (∀ k, dictGet params k = none →
        (update_user_params user params).1.fields k = user.fields k) :=
  ⟨update_user_params_save_count user params,
    fun k v h => update_user_params_fields_given user params k v h,
    fun k h => update_user_params_fields_other user params k h⟩

/-- The record Django's `get_or_create` creates on a lookup miss
(documented semantics of the storage collaborator): creation parameters are
the lookup keyword `username=username` updated by `defaults`, so a
`username` key inside `defaults` overrides the lookup value; every field
not given stays unset; the password marker starts unset. -/
def newUserOf (username : String)
    (defaults : List (String × Option String)) : DUser :=
  ⟨fun k =>
    match dictGet defaults k with
    | some v => v
    | none => if k == "username" then some username else none,
    false⟩

/-- Django's atomic `User.objects.get_or_create(username=username,
defaults=defaults)` as called by `setup_user` (backends.py line 55):
look the record up by username; on a miss, create and persist `newUserOf`.
Returns the new store, the record and the `created` flag. -/
def get_or_create (db : List DUser) (username : String)
    (defaults : List (String × Option String)) :
    List DUser × DUser × Bool :=
  match db.find? (fun u => u.fields "username" == some username) with
  | some u => (db, u, false)
  | none =>
    (db ++ [newUserOf username defaults], newUserOf username defaults, true)

/-- `User.objects.get(username=username)` (backends.py line 60), which
raises `User.DoesNotExist` on a miss: the raise is the `Except.error`
value. -/
def objectsGet (db : List DUser) (username : String) : Except Unit DUser :=
  match db.find? (fun u => u.fields "username" == some username) with
  | some u => Except.ok u
  | none => Except.error ()

/-- `ShibbolethRemoteUserBackend.handle_created_user` (backends.py lines
66-76): set the unusable-password marker, `user.save()`, then return
whatever the `configure_user` hook (default: identity) makes of the
record. -/
def handle_created_user (configure : DUser → DUser) (db : List DUser)
    (user : DUser) : List DUser × DUser :=
  let u1 : DUser := { user with unusablePassword := true }
  (dbSave db (u1.fields "username") u1, configure u1)

/-- `ShibbolethRemoteUserBackend.setup_user` (backends.py lines 44-63):
with `create_unknown_user` true, `get_or_create`, handing a freshly
created record to `handle_created_user`; otherwise a plain `objects.get`
whose `DoesNotExist` is caught and turned into `none`, so no exception
escapes the lookup miss. -/
def setup_user (create_unknown_user : Bool) (configure : DUser → DUser)
    (db : List DUser) (username : String)
    (defaults : List (String × Option String)) :
    List DUser × Option DUser :=
  if create_unknown_user then
    let r := get_or_create db username defaults
    if r.2.2 then
      let h := handle_created_user configure r.1 r.2.1
      (h.1, some h.2)
    else (r.1, some r.2.1)
  else
    match objectsGet db username with
    | Except.ok u => (db, some u)
    | Except.error _ => (db, none)

/-- The dictionary `shib_user_params` built inside `authenticate`
(backends.py line 36): the restriction of `shib_meta` to the user model's
field names (the Python loop rebuilds the same dict once per field name;
its net effect is this single restriction, defined only when `field_names`
is non-empty). -/
def shibUserParams (field_names : List String)
    (shib_meta : List (String × Option String)) :
    List (String × Option String) :=
  field_names.filterMap
    (fun k => (dictGet shib_meta k).map (fun v => (k, v)))

/-- `ShibbolethRemoteUserBackend.authenticate` (backends.py lines 20-40):
reject a missing or empty `remote_user`, clean the username, restrict
`shib_meta` to the model's field names, resolve through `setup_user`,
reconcile fields through `update_user_params` (whose save replaces the
fetched record in the store), and gate the result on
`user_can_authenticate` (`canAuth`). Returns the store after all writes
together with the authenticated user, `none` for the anonymous outcome. -/
def authenticate (create_unknown_user : Bool) (canAuth : DUser → Bool)
    (configure : DUser → DUser) (field_names : List String)
    (db : List DUser) (remote_user : Option String)
    (shib_meta : List (String × Option String)) :
    List DUser × Option DUser :=
  match remote_user with
  | none => (db, none)
  | some ru =>
    if ru = "" then (db, none)
    else
      let username := clean_username ru
      let params := shibUserParams field_names shib_meta
      let r := setup_user create_unknown_user configure db username params
      match r.2 with
      | none => (r.1, none)
      | some u =>
        let upd := update_user_params u params
        let db2 := if 0 < upd.2 then dbSave r.1 (u.fields "username") upd.1
          else r.1
        (db2, if canAuth upd.1 then some upd.1 else none)

/-- C7: with creation enabled, `setup_user` sets the unusable-password
marker and invokes the `configure_user` hook exactly when `get_or_create`
actually created the record: a found record is returned untouched whatever
the hook is, while a created record is returned as the hook's result on
the marker-bearing record (whose marker was unset before
`handle_created_user` ran). -/
theorem setup_user_creation_hooks (db : List DUser) (username : String)
    (defaults : List (String × Option String)) :
    (∀ u, db.find? (fun w => w.fields "username" == some username) = some u →
      ∀ configure : DUser → DUser,
        setup_user true configure db username defaults = (db, some u))
    ∧ (db.find? (fun w => w.fields "username" == some username) = none →
      ∀ configure : DUser → DUser,
        (setup_user true configure db username defaults).2 =
          some (configure
            { newUserOf username defaults with unusablePassword := true })
        ∧ ({ newUserOf username defaults with
            unusablePassword := true } : DUser).unusablePassword = true
        ∧ (newUserOf username defaults).unusablePassword = false) := by
  constructor
  · intro u hfind configure
    simp [setup_user, get_or_create, hfind]
  · intro hfind configure
    refine ⟨?_, rfl, rfl⟩
    simp [setup_user, get_or_create, hfind, handle_created_user]

/-- C8: with `create_unknown_user` false and no stored record for the
username, `setup_user` turns the `DoesNotExist` raise into `none` — a
normal anonymous outcome, not an escaping exception — and `authenticate`
then returns `none` with the store untouched. -/
theorem setup_user_miss_no_create (configure : DUser → DUser)
    (canAuth : DUser → Bool) (field_names : List String) (db : List DUser)
    (ru : String) (shib_meta : List (String × Option String))
    (hru : ru ≠ "")
    (hmiss : db.find? (fun u => u.fields "username" ==
      some (clean_username ru)) = none) :
    setup_user false configure db (clean_username ru)
      (shibUserParams field_names shib_meta) = (db, none)
    ∧ authenticate false canAuth configure field_names db (some ru)
      shib_meta = (db, none) := by
  have h1 : setup_user false configure db (clean_username ru)
      (shibUserParams field_names shib_meta) = (db, none) := by
    simp [setup_user, objectsGet, hmiss]
  refine ⟨h1, ?_⟩
  simp [authenticate, hru, h1]

/-- C8 witness: an empty store, creation disabled — both the resolver and
`authenticate` return the anonymous outcome. -/
theorem setup_user_miss_no_create_witness :
    setup_user false id [] (clean_username "alice")
      (shibUserParams ["username"] []) = ([], none)
    ∧ authenticate false (fun _ => true) id ["username"] [] (some "alice")
      [] = ([], none) :=
  setup_user_miss_no_create id (fun _ => true) ["username"] [] "alice" []
    (by decide) (by rfl)

theorem shibUserParams_dictGet (field_names : List String)
    (shib_meta : List (String × Option String)) (k : String) :
    dictGet (shibUserParams field_names shib_meta) k =
      if k ∈ field_names then dictGet shib_meta k else none := by
  induction field_names with
  | nil => simp [shibUserParams, dictGet]
  | cons a rest ih =>
    cases hv : dictGet shib_meta a with
    | none =>
      have hstep : shibUserParams (a :: rest) shib_meta =
          shibUserParams rest shib_meta := by
        simp only [shibUserParams, List.filterMap_cons]
        simp [hv]
      rw [hstep, ih]
      by_cases hk : k = a
      · subst hk
        by_cases hm : k ∈ rest <;> simp [hm, hv]
      · simp [List.mem_cons, hk]
    | some v0 =>
      have hstep : shibUserParams (a :: rest) shib_meta =
          (a, v0) :: shibUserParams rest shib_meta := by
        simp only [shibUserParams, List.filterMap_cons]
        simp [hv]
      rw [hstep]
      by_cases hk : k = a
      · subst hk
        simp [dictGet, hv]
      · have hak : (a == k) = false :=
          beq_eq_false_iff_ne.mpr (fun hh => hk hh.symm)
        simp only [dictGet, hak, Bool.false_eq_true, if_false]
        rw [ih]
        simp [List.mem_cons, hk]

/-- C9: the dictionary `authenticate` hands to `setup_user` as creation
defaults and to `update_user_params` is exactly the restriction of
`shib_meta` to the model's field names; a `username` key of `shib_meta` is
included raw, so a created record's `username` field is seeded from
`shib_meta`'s value (Django's `get_or_create` defaults override the
cleaned lookup key) and reconciliation rewrites the stored `username`
field — with a save — whenever the record's current value differs. -/
theorem authenticate_params_restriction (field_names : List String)
    (shib_meta : List (String × Option String)) (db : List DUser)
    (canAuth : DUser → Bool) (ru : String) (v : Option String)
    (_hf : field_names ≠ []) (hu : "username" ∈ field_names)
    (hv : dictGet shib_meta "username" = some v) (hru : ru ≠ "") :
    (∀ k, dictGet (shibUserParams field_names shib_meta) k =
      if k ∈ field_names then dictGet shib_meta k else none)
    ∧ dictGet (shibUserParams field_names shib_meta) "username" = some v
    ∧ (db.find? (fun w => w.fields "username" ==
        some (clean_username ru)) = none →
      ∀ u2, (authenticate true canAuth id field_names db (some ru)
          shib_meta).2 = some u2 → u2.fields "username" = v)
    ∧ (∀ w : DUser,
        (update_user_params w
          (shibUserParams field_names shib_meta)).1.fields "username" = v
        ∧ (w.fields "username" ≠ v →
          (update_user_params w
            (shibUserParams field_names shib_meta)).2 = 1)) := by
  have hchar := shibUserParams_dictGet field_names shib_meta
  have hparams : dictGet (shibUserParams field_names shib_meta) "username"
      = some v := by rw [hchar]; simp [hu, hv]
  refine ⟨hchar, hparams, ?_, ?_⟩
  · intro hmiss u2 h2
    have hsetup : setup_user true id db (clean_username ru)
        (shibUserParams field_names shib_meta) =
        (dbSave (db ++ [newUserOf (clean_username ru)
            (shibUserParams field_names shib_meta)])
          (({ newUserOf (clean_username ru)
              (shibUserParams field_names shib_meta) with
            unusablePassword := true } : DUser).fields "username")
          { newUserOf (clean_username ru)
              (shibUserParams field_names shib_meta) with
            unusablePassword := true },
        some { newUserOf (clean_username ru)
            (shibUserParams field_names shib_meta) with
          unusablePassword := true }) := by
      simp [setup_user, get_or_create, hmiss, handle_created_user]
    rw [authenticate] at h2
    simp only [hru, if_false, hsetup] at h2
    by_cases hca : canAuth (update_user_params
        { newUserOf (clean_username ru)
            (shibUserParams field_names shib_meta) with
          unusablePassword := true }
        (shibUserParams field_names shib_meta)).1 = true
    · rw [if_pos hca] at h2
      have hu2 : u2 = (update_user_params
          { newUserOf (clean_username ru)
              (shibUserParams field_names shib_meta) with
            unusablePassword := true }
          (shibUserParams field_names shib_meta)).1 :=
        (Option.some.injEq _ _ ▸ h2).symm
      rw [hu2]
      exact update_user_params_fields_given _ _ "username" v hparams
    · rw [if_neg hca] at h2
      exact absurd h2 (by simp)
  · intro w
    refine ⟨update_user_params_fields_given w _ "username" v hparams, ?_⟩
    intro hne
    rw [update_user_params_save_count]
    have hmem : ("username", v) ∈ shibUserParams field_names shib_meta :=
      mem_of_dictGet _ _ _ hparams
    rw [if_pos ⟨fun hnil => by rw [hnil] at hmem; simp at hmem,
      ⟨("username", v), hmem, hne⟩⟩]

/-- C9 witness: one field name `username`, `shib_meta` carrying a raw
mapped value `bob` for it, an empty store and the remote header `alice`:
the restriction keeps the raw value, a created record is seeded with it,
and reconciliation rewrites a differing stored value with one save. -/
theorem authenticate_params_restriction_witness :
    (∀ k, dictGet (shibUserParams ["username"]
        [("username", some "bob")]) k =
      if k ∈ ["username"] then dictGet [("username", some "bob")] k
      else none)
    ∧ dictGet (shibUserParams ["username"] [("username", some "bob")])
        "username" = some (some "bob")
    ∧ (([] : List DUser).find? (fun w => w.fields "username" ==
        some (clean_username "alice")) = none →
      ∀ u2, (authenticate true (fun _ => true) id ["username"] []
          (some "alice") [("username", some "bob")]).2 = some u2 →
        u2.fields "username" = some "bob")
    ∧ (∀ w : DUser,
        (update_user_params w (shibUserParams ["username"]
          [("username", some "bob")])).1.fields "username" = some "bob"
        ∧ (w.fields "username" ≠ some "bob" →
          (update_user_params w (shibUserParams ["username"]
            [("username", some "bob")])).2 = 1)) :=
  authenticate_params_restriction ["username"] [("username", some "bob")]
    [] (fun _ => true) "alice" (some "bob") (by decide) (by decide)
    (by rfl) (by decide)

end Shib
